import Mathlib

/-!
# Verification of the Ryder core controller (`ryder_core.py`)

Shallow embedding of the `RyderAgent` class over the real numbers.
Python floats are modelled as `ℝ`; numpy `clip`, the logistic `sigmoid`
and the exponential moving average `ema` are the module-level helpers of
the source.  The two bounded `deque`s are modelled as Lean lists stored
MOST-RECENT-FIRST:

* `u_hist` (`deque` with `maxlen = L`, written with `appendleft`) already
  has its most recent element first in the source, so the list order
  coincides with `list(self.u_hist)`.
* `e_buf` (`deque` with `maxlen = int(fs)`, written with `append` on the
  right) is stored reversed here, so Python's `e_buf[-1]` is element `0`
  and `e_buf[-2]` is element `1`; a right-`append` becomes a cons
  followed by `take maxlen`.

Each definition carries the line numbers of the source it embeds.
-/

noncomputable section

/-- Helper `clip`, `ryder_core.py` lines 6-7:
`np.minimum(np.maximum(x, lo), hi)`. -/
def clip (x lo hi : ℝ) : ℝ := min (max x lo) hi

/-- Helper `sigmoid`, `ryder_core.py` lines 9-10: `1 / (1 + np.exp(-x))`. -/
def sigmoid (x : ℝ) : ℝ := 1 / (1 + Real.exp (-x))

/-- Helper `ema`, `ryder_core.py` lines 12-13: `(1 - alpha) * prev + alpha * x`. -/
def ema (prev x alpha : ℝ) : ℝ := (1 - alpha) * prev + alpha * x

/-- Numpy `np.dot` on two equal-length 1-d arrays (sum of pointwise products). -/
def dot (a b : List ℝ) : ℝ := (List.zipWith (fun x y => x * y) a b).sum

/-- The discrete phase, `ryder_core.py` line 28 and lines 79-81
(the source stores the strings `"warmup"`, `"climb"`, `"peak"`). -/
inductive Phase where
  | warmup
  | climb
  | peak
deriving DecidableEq, Repr

/-- One CIEU log entry, `ryder_core.py` lines 153-159.  The nested Python
dicts `X = {heat, eta, phase}` and `U = {amp, freq, raw}` are flattened
into fields `heat/eta/phase` and `amp/freq/raw`. -/
structure CIEU where
  heat : ℝ
  eta : ℝ
  phase : Phase
  amp : ℝ
  freq : ℝ
  raw : ℝ
  Y_star : ℝ
  Y : ℝ
  R : ℝ

/-- The mutable state of `RyderAgent`, `ryder_core.py` lines 16-47.
`e_maxlen` records the `maxlen` of the `e_buf` deque (`int(fs)`). -/
structure RyderState where
  fs : ℝ
  dt : ℝ
  eta : ℝ
  eta_min : ℝ
  eta_max : ℝ
  shear_memory : ℝ
  heat : ℝ
  phase : Phase
  L : ℕ
  g_hat : List ℝ
  u_hist : List ℝ
  mu : ℝ
  Y_star : ℝ
  Y_real : ℝ
  freq : ℝ
  amp : ℝ
  CIEU_log : List CIEU
  e_maxlen : ℕ
  e_buf : List ℝ

/-- Constructor `RyderAgent.__init__`, `ryder_core.py` lines 16-47 (integral float
constants such as `8.0` are written as the equal integer literals). -/
def mkAgent (fs : ℝ) : RyderState where
  fs := fs
  dt := 1 / fs
  eta := 8
  eta_min := 0.5
  eta_max := 12
  shear_memory := 0
  heat := 0
  phase := Phase.warmup
  L := 5
  g_hat := List.replicate 5 0
  u_hist := List.replicate 5 0
  mu := 0.01
  Y_star := 0
  Y_real := 0
  freq := 0.5
  amp := 0
  CIEU_log := []
  e_maxlen := (⌊fs⌋).toNat
  e_buf := List.replicate (⌊fs⌋).toNat 0

/-- Echo prediction `y_pred`, `ryder_core.py` lines 91-92:
`np.dot(self.g_hat, u_vec) if len(u_vec) == self.L else 0.0`. -/
def predict (s : RyderState) : ℝ :=
  if s.u_hist.length = s.L then dot s.g_hat s.u_hist else 0.0

/-- Residual `e = y_obs - y_pred`, `ryder_core.py` line 93. -/
def residualOf (s : RyderState) (y_obs : ℝ) : ℝ := y_obs - predict s

/-- LMS weight update, `ryder_core.py` lines 96-97:
`if len(u_vec) == self.L: self.g_hat += self.mu * e * u_vec`. -/
def newGhat (s : RyderState) (y_obs : ℝ) : List ℝ :=
  if s.u_hist.length = s.L then
    List.zipWith (fun g u => g + s.mu * residualOf s y_obs * u) s.g_hat s.u_hist
  else s.g_hat

/-- Buffer push `self.e_buf.append(e)`, `ryder_core.py` line 99 (right-append on a
full bounded deque; buffer stored most-recent-first). -/
def newEbuf (s : RyderState) (y_obs : ℝ) : List ℝ :=
  (residualOf s y_obs :: s.e_buf).take s.e_maxlen

/-- History push `self.u_hist.appendleft(self.amp)`, `ryder_core.py` line 100. -/
def newUhist (s : RyderState) : List ℝ :=
  (s.amp :: s.u_hist).take s.L

/-- Shear proxy, `ryder_core.py` line 104:
`abs(e - self.e_buf[-2]) if len(self.e_buf) > 2 else 0.0`, evaluated
after the append of line 99 (so `e_buf[-2]` is index `1` of the
most-recent-first buffer). -/
def shearInStep (s : RyderState) (y_obs : ℝ) : ℝ :=
  if 2 < (newEbuf s y_obs).length then
    |residualOf s y_obs - (newEbuf s y_obs).getD 1 0|
  else 0.0

/-- Artifact flag, `ryder_core.py` line 106: `1.0 if abs(e) > 0.8 else 0.0`. -/
def artifactOf (s : RyderState) (y_obs : ℝ) : ℝ :=
  if 0.8 < |residualOf s y_obs| then 1.0 else 0.0

/-- Thixotropic shear memory, `ryder_core.py` line 56:
`ema(self.shear_memory, shear_force, 0.05)`. -/
def newShearMemory (s : RyderState) (y_obs : ℝ) : ℝ :=
  ema s.shear_memory (shearInStep s y_obs) 0.05

/-- Clamped viscosity target, `ryder_core.py` lines 59-60:
`eta_max / (1 + 2 * shear_memory ** 1.5)` then `clip` to
`[eta_min, eta_max]` (note: computed from the just-updated
`shear_memory`, not from the raw shear proxy). -/
def targetEta (s : RyderState) (y_obs : ℝ) : ℝ :=
  clip (s.eta_max / (1.0 + 2.0 * newShearMemory s y_obs ^ (1.5 : ℝ)))
    s.eta_min s.eta_max

/-- Viscosity smoothing, `ryder_core.py` line 63: `ema(eta, target_eta, 0.1)`. -/
def newEta (s : RyderState) (y_obs : ℝ) : ℝ := ema s.eta (targetEta s y_obs) 0.1

/-- Resonance estimate, `ryder_core.py` line 113:
`clip(abs(e * self.amp) * 5.0, 0, 1)` (uses the previous step's `amp`). -/
def resonanceOf (s : RyderState) (y_obs : ℝ) : ℝ :=
  clip (|residualOf s y_obs * s.amp| * 5.0) 0 1

/-- Heat integration, `ryder_core.py` lines 71-76:
`heating = 0.3 * resonance * (1 - artifact)`,
`cooling = 0.05 + 0.2 * artifact`,
`delta = (heating - cooling) * (1 / fs)`,
`heat = clip(heat + delta * 10, 0, 100)`. -/
def newHeat (s : RyderState) (y_obs : ℝ) : ℝ :=
  clip (s.heat +
      (0.3 * resonanceOf s y_obs * (1.0 - artifactOf s y_obs) -
        (0.05 + 0.2 * artifactOf s y_obs)) * (1.0 / s.fs) * 10.0)
    0 100

/-- Phase thresholds, `ryder_core.py` lines 79-81. -/
def phaseOfHeat (h : ℝ) : Phase :=
  if h < 30 then Phase.warmup else if h < 80 then Phase.climb else Phase.peak

/-- The phase stored after a step, `ryder_core.py` lines 79-81 applied to
the just-updated heat. -/
def newPhase (s : RyderState) (y_obs : ℝ) : Phase := phaseOfHeat (newHeat s y_obs)

/-- Target lookup, `ryder_core.py` lines 119-121. -/
def levelOfPhase : Phase → ℝ
  | Phase.warmup => 0.3
  | Phase.climb => 0.6
  | Phase.peak => 0.9

/-- Target `Y_star` after a step, `ryder_core.py` lines 119-121. -/
def newYstar (s : RyderState) (y_obs : ℝ) : ℝ := levelOfPhase (newPhase s y_obs)

/-- Frequency ramp and smoothing, `ryder_core.py` lines 127-128:
`target_freq = 0.5 + (heat / 100) * 4`, `freq = ema(freq, target_freq, 0.01)`
(uses the just-updated heat). -/
def newFreq (s : RyderState) (y_obs : ℝ) : ℝ :=
  ema s.freq (0.5 + newHeat s y_obs / 100.0 * 4.0) 0.01

/-- Damping factor, `ryder_core.py` line 133: `eta_min / eta` with the
just-updated viscosity. -/
def dampingOf (s : RyderState) (y_obs : ℝ) : ℝ := s.eta_min / newEta s y_obs

/-- Drive force, `ryder_core.py` lines 137-138:
`gap = Y_star - Y_real` (both just updated),
`drive_force = 0.2 + 0.8 * sigmoid(gap * 2)`. -/
def driveOf (s : RyderState) (y_obs : ℝ) : ℝ :=
  0.2 + 0.8 * sigmoid ((newYstar s y_obs - resonanceOf s y_obs) * 2.0)

/-- Amplitude slew limiting, `ryder_core.py` lines 140-144:
`target_amp = drive_force * damping_factor`, `amp = ema(amp, target_amp, 0.05)`. -/
def newAmp (s : RyderState) (y_obs : ℝ) : ℝ :=
  ema s.amp (driveOf s y_obs * dampingOf s y_obs) 0.05

/-- Emitted waveform sample, `ryder_core.py` lines 147-148:
`time_step = len(self.CIEU_log) * self.dt` (length before the append),
`u_waveform = amp * sin(2 * pi * freq * time_step)`. -/
def outOf (s : RyderState) (y_obs : ℝ) : ℝ :=
  newAmp s y_obs *
    Real.sin (2 * Real.pi * newFreq s y_obs * ((s.CIEU_log.length : ℝ) * s.dt))

/-- The CIEU record appended by a step, `ryder_core.py` lines 151-159;
`reward = -abs(Y_star - Y_real)`. -/
def stepEntry (s : RyderState) (y_obs : ℝ) : CIEU where
  heat := newHeat s y_obs
  eta := newEta s y_obs
  phase := newPhase s y_obs
  amp := newAmp s y_obs
  freq := newFreq s y_obs
  raw := outOf s y_obs
  Y_star := newYstar s y_obs
  Y := resonanceOf s y_obs
  R := -|newYstar s y_obs - resonanceOf s y_obs|

/-- Operation `RyderAgent.step`, `ryder_core.py` lines 83-162: the updated state
paired with the returned `u_waveform`. -/
def step (s : RyderState) (y_obs : ℝ) : RyderState × ℝ :=
  ({ s with
      g_hat := newGhat s y_obs
      e_buf := newEbuf s y_obs
      u_hist := newUhist s
      shear_memory := newShearMemory s y_obs
      eta := newEta s y_obs
      heat := newHeat s y_obs
      phase := newPhase s y_obs
      Y_real := resonanceOf s y_obs
      Y_star := newYstar s y_obs
      freq := newFreq s y_obs
      amp := newAmp s y_obs
      CIEU_log := s.CIEU_log ++ [stepEntry s y_obs] },
    outOf s y_obs)

/-- Feed a finite observation sequence, returning the final state. -/
def runSteps (s : RyderState) : List ℝ → RyderState
  | [] => s
  | y :: ys => runSteps (step s y).1 ys

/-- Feed a finite observation sequence, returning the emitted commands. -/
def runOutputs (s : RyderState) : List ℝ → List ℝ
  | [] => []
  | y :: ys => (step s y).2 :: runOutputs (step s y).1 ys

/-- Invariant maintained by `step` and established by `mkAgent`:
viscosity bounds, heat bounds, amplitude in `[0,1)`, frequency in
`[0.5, 4.5]`. -/
def ReachInv (s : RyderState) : Prop :=
  0 < s.eta_min ∧ s.eta_min ≤ s.eta_max ∧
    s.eta_min ≤ s.eta ∧ s.eta ≤ s.eta_max ∧
    0 ≤ s.heat ∧ s.heat ≤ 100 ∧
    0 ≤ s.amp ∧ s.amp < 1 ∧
    0.5 ≤ s.freq ∧ s.freq ≤ 4.5

/-! ## Basic lemmas about the helpers -/

theorem clip_le_hi (x lo hi : ℝ) : clip x lo hi ≤ hi := min_le_right _ _

theorem lo_le_clip (x : ℝ) {lo hi : ℝ} (h : lo ≤ hi) : lo ≤ clip x lo hi :=
  le_min (le_max_right x lo) h

theorem clip_eq_of_mem {x lo hi : ℝ} (h1 : lo ≤ x) (h2 : x ≤ hi) :
    clip x lo hi = x := by
  unfold clip
  rw [max_eq_left h1, min_eq_left h2]

theorem sigmoid_pos (x : ℝ) : 0 < sigmoid x := by
  unfold sigmoid
  have h := Real.exp_pos (-x)
  positivity

theorem sigmoid_lt_one (x : ℝ) : sigmoid x < 1 := by
  unfold sigmoid
  have h := Real.exp_pos (-x)
  rw [div_lt_one (by linarith)]
  linarith

theorem ema_le_hi {a b hi : ℝ} (alpha : ℝ) (ha : a ≤ hi) (hb : b ≤ hi)
    (h0 : 0 ≤ alpha) (h1 : alpha ≤ 1) : ema a b alpha ≤ hi := by
  unfold ema
  nlinarith [mul_le_mul_of_nonneg_left ha (by linarith : (0:ℝ) ≤ 1 - alpha),
    mul_le_mul_of_nonneg_left hb h0]

theorem lo_le_ema {a b lo : ℝ} (alpha : ℝ) (ha : lo ≤ a) (hb : lo ≤ b)
    (h0 : 0 ≤ alpha) (h1 : alpha ≤ 1) : lo ≤ ema a b alpha := by
  unfold ema
  nlinarith [mul_le_mul_of_nonneg_left ha (by linarith : (0:ℝ) ≤ 1 - alpha),
    mul_le_mul_of_nonneg_left hb h0]

theorem ema_lt_hi {a b hi : ℝ} (alpha : ℝ) (ha : a < hi) (hb : b < hi)
    (h0 : 0 < alpha) (h1 : alpha < 1) : ema a b alpha < hi := by
  unfold ema
  nlinarith [mul_lt_mul_of_pos_left ha (by linarith : (0:ℝ) < 1 - alpha),
    mul_lt_mul_of_pos_left hb h0]

/-! ## Field projections of `step` -/

theorem step_eta (s : RyderState) (y : ℝ) : (step s y).1.eta = newEta s y := rfl

theorem step_heat (s : RyderState) (y : ℝ) : (step s y).1.heat = newHeat s y := rfl

theorem step_phase (s : RyderState) (y : ℝ) : (step s y).1.phase = newPhase s y := rfl

theorem step_Y_star (s : RyderState) (y : ℝ) : (step s y).1.Y_star = newYstar s y := rfl

theorem step_Y_real (s : RyderState) (y : ℝ) : (step s y).1.Y_real = resonanceOf s y := rfl

theorem step_freq (s : RyderState) (y : ℝ) : (step s y).1.freq = newFreq s y := rfl

theorem step_amp (s : RyderState) (y : ℝ) : (step s y).1.amp = newAmp s y := rfl

theorem step_g_hat (s : RyderState) (y : ℝ) : (step s y).1.g_hat = newGhat s y := rfl

theorem step_u_hist (s : RyderState) (y : ℝ) : (step s y).1.u_hist = newUhist s := rfl

theorem step_e_buf (s : RyderState) (y : ℝ) : (step s y).1.e_buf = newEbuf s y := rfl

theorem step_shear_memory (s : RyderState) (y : ℝ) :
    (step s y).1.shear_memory = newShearMemory s y := rfl

theorem step_log (s : RyderState) (y : ℝ) :
    (step s y).1.CIEU_log = s.CIEU_log ++ [stepEntry s y] := rfl

theorem step_out (s : RyderState) (y : ℝ) : (step s y).2 = outOf s y := rfl

theorem step_fs (s : RyderState) (y : ℝ) : (step s y).1.fs = s.fs := rfl

theorem step_dt (s : RyderState) (y : ℝ) : (step s y).1.dt = s.dt := rfl

theorem step_eta_min (s : RyderState) (y : ℝ) : (step s y).1.eta_min = s.eta_min := rfl

theorem step_eta_max (s : RyderState) (y : ℝ) : (step s y).1.eta_max = s.eta_max := rfl

theorem step_L (s : RyderState) (y : ℝ) : (step s y).1.L = s.L := rfl

theorem step_mu (s : RyderState) (y : ℝ) : (step s y).1.mu = s.mu := rfl

theorem step_e_maxlen (s : RyderState) (y : ℝ) : (step s y).1.e_maxlen = s.e_maxlen := rfl

/-! ## Reachable-state invariant -/

theorem inv_mk (fs : ℝ) : ReachInv (mkAgent fs) := by
  unfold ReachInv mkAgent
  norm_num

theorem newEta_mem {s : RyderState} (y : ℝ) (hmm : s.eta_min ≤ s.eta_max)
    (h1 : s.eta_min ≤ s.eta) (h2 : s.eta ≤ s.eta_max) :
    s.eta_min ≤ newEta s y ∧ newEta s y ≤ s.eta_max := by
  unfold newEta
  exact ⟨lo_le_ema _ h1 (lo_le_clip _ hmm) (by norm_num) (by norm_num),
    ema_le_hi _ h2 (clip_le_hi _ _ _) (by norm_num) (by norm_num)⟩

theorem newHeat_mem (s : RyderState) (y : ℝ) :
    0 ≤ newHeat s y ∧ newHeat s y ≤ 100 :=
  ⟨lo_le_clip _ (by norm_num), clip_le_hi _ _ _⟩

theorem driveOf_mem (s : RyderState) (y : ℝ) :
    0.2 < driveOf s y ∧ driveOf s y < 1 := by
  unfold driveOf
  have h1 := sigmoid_pos ((newYstar s y - resonanceOf s y) * 2.0)
  have h2 := sigmoid_lt_one ((newYstar s y - resonanceOf s y) * 2.0)
  constructor <;> nlinarith

theorem dampingOf_mem {s : RyderState} (y : ℝ) (h0 : 0 < s.eta_min)
    (hmm : s.eta_min ≤ s.eta_max) (h1 : s.eta_min ≤ s.eta)
    (h2 : s.eta ≤ s.eta_max) :
    0 < dampingOf s y ∧ dampingOf s y ≤ 1 := by
  unfold dampingOf
  have he := newEta_mem y hmm h1 h2
  have hpos : 0 < newEta s y := lt_of_lt_of_le h0 he.1
  exact ⟨div_pos h0 hpos, (div_le_one hpos).mpr he.1⟩

theorem newAmp_mem {s : RyderState} (y : ℝ) (h0 : 0 < s.eta_min)
    (hmm : s.eta_min ≤ s.eta_max) (h1 : s.eta_min ≤ s.eta)
    (h2 : s.eta ≤ s.eta_max) (ha0 : 0 ≤ s.amp) (ha1 : s.amp < 1) :
    0 ≤ newAmp s y ∧ newAmp s y < 1 := by
  unfold newAmp
  obtain ⟨hd1, hd2⟩ := driveOf_mem s y
  obtain ⟨hg1, hg2⟩ := dampingOf_mem y h0 hmm h1 h2
  have htpos : 0 ≤ driveOf s y * dampingOf s y := by nlinarith
  have htlt : driveOf s y * dampingOf s y < 1 := by nlinarith
  exact ⟨lo_le_ema _ ha0 htpos (by norm_num) (by norm_num),
    ema_lt_hi _ ha1 htlt (by norm_num) (by norm_num)⟩

theorem newFreq_mem {s : RyderState} (y : ℝ) (hf1 : 0.5 ≤ s.freq)
    (hf2 : s.freq ≤ 4.5) : 0.5 ≤ newFreq s y ∧ newFreq s y ≤ 4.5 := by
  unfold newFreq
  obtain ⟨hh1, hh2⟩ := newHeat_mem s y
  exact ⟨lo_le_ema _ hf1 (by linarith) (by norm_num) (by norm_num),
    ema_le_hi _ hf2 (by linarith) (by norm_num) (by norm_num)⟩

theorem inv_step {s : RyderState} (y : ℝ) (h : ReachInv s) : ReachInv (step s y).1 := by
  obtain ⟨h0, hmm, h1, h2, hh1, hh2, ha0, ha1, hf1, hf2⟩ := h
  obtain ⟨he1, he2⟩ := newEta_mem y hmm h1 h2
  obtain ⟨hn1, hn2⟩ := newHeat_mem s y
  obtain ⟨hna1, hna2⟩ := newAmp_mem y h0 hmm h1 h2 ha0 ha1
  obtain ⟨hnf1, hnf2⟩ := newFreq_mem y hf1 hf2
  exact ⟨h0, hmm, he1, he2, hn1, hn2, hna1, hna2, hnf1, hnf2⟩

theorem inv_run {s : RyderState} (obs : List ℝ) (h : ReachInv s) :
    ReachInv (runSteps s obs) := by
  induction obs generalizing s with
  | nil => exact h
  | cons y ys ih => exact ih (inv_step y h)

theorem abs_out_lt_one {s : RyderState} (y : ℝ) (h : ReachInv s) :
    |(step s y).2| < 1 := by
  obtain ⟨h0, hmm, h1, h2, hh1, hh2, ha0, ha1, hf1, hf2⟩ := h
  obtain ⟨hna1, hna2⟩ := newAmp_mem y h0 hmm h1 h2 ha0 ha1
  rw [step_out]
  unfold outOf
  set t := 2 * Real.pi * newFreq s y * ((s.CIEU_log.length : ℝ) * s.dt)
  calc |newAmp s y * Real.sin t| = |newAmp s y| * |Real.sin t| := abs_mul _ _
    _ ≤ newAmp s y * 1 := by
        rw [abs_of_nonneg hna1]
        exact mul_le_mul_of_nonneg_left
          (abs_le.mpr ⟨Real.neg_one_le_sin t, Real.sin_le_one t⟩) hna1
    _ < 1 := by linarith

theorem abs_mem_runOutputs_lt_one {s : RyderState} (obs : List ℝ) (h : ReachInv s) :
    ∀ u ∈ runOutputs s obs, |u| < 1 := by
  induction obs generalizing s with
  | nil => intro u hu; simp [runOutputs] at hu
  | cons y ys ih =>
      intro u hu
      simp only [runOutputs, List.mem_cons] at hu
      rcases hu with rfl | hu
      · exact abs_out_lt_one y h
      · exact ih (inv_step y h) u hu

/-- Every telemetry entry appended during a run satisfies any property
that every `stepEntry` satisfies. -/
theorem log_entries_prop {P : CIEU → Prop} (hP : ∀ s y, P (stepEntry s y)) :
    ∀ (obs : List ℝ) (s : RyderState), (∀ r ∈ s.CIEU_log, P r) →
      ∀ r ∈ (runSteps s obs).CIEU_log, P r := by
  intro obs
  induction obs with
  | nil => intro s h; exact h
  | cons y ys ih =>
      intro s h
      simp only [runSteps]
      apply ih
      intro r hr
      rw [step_log] at hr
      rcases List.mem_append.mp hr with h1 | h2
      · exact h r h1
      · rw [List.mem_singleton] at h2
        subst h2
        exact hP s y

theorem runSteps_log_length (obs : List ℝ) (s : RyderState) :
    (runSteps s obs).CIEU_log.length = s.CIEU_log.length + obs.length := by
  induction obs generalizing s with
  | nil => simp [runSteps]
  | cons y ys ih =>
      simp only [runSteps, ih, step_log, List.length_append, List.length_cons,
        List.length_nil]
      omega

/-! ## Claims -/

/-- C1: For every reachable `RyderState` (any finite observation sequence
fed to `step` after construction), the viscosity satisfies
`eta_min ≤ eta ≤ eta_max` and the heat satisfies `0 ≤ heat ≤ 100` after
every step. -/
theorem eta_heat_invariant (fs : ℝ) (obs : List ℝ) :
    (runSteps (mkAgent fs) obs).eta_min ≤ (runSteps (mkAgent fs) obs).eta ∧
      (runSteps (mkAgent fs) obs).eta ≤ (runSteps (mkAgent fs) obs).eta_max ∧
      0 ≤ (runSteps (mkAgent fs) obs).heat ∧
      (runSteps (mkAgent fs) obs).heat ≤ 100 := by
  obtain ⟨h0, hmm, h1, h2, hh1, hh2, _⟩ := inv_run obs (inv_mk fs)
  exact ⟨h1, h2, hh1, hh2⟩

/-- C4: after every step the stored phase is exactly the threshold map of
the just-updated heat — `warmup` below 30, `climb` on `[30, 80)` (so heat
= 30 yields `climb`), `peak` at and above 80 — and `Y_star` is then
exactly 0.3 / 0.6 / 0.9 for `warmup` / `climb` / `peak`. -/
theorem phase_matches_heat_thresholds (s : RyderState) (y : ℝ) :
    (step s y).1.phase = phaseOfHeat (step s y).1.heat ∧
      (step s y).1.Y_star = levelOfPhase (step s y).1.phase ∧
      (∀ h : ℝ, (phaseOfHeat h = Phase.warmup ↔ h < 30) ∧
        (phaseOfHeat h = Phase.climb ↔ 30 ≤ h ∧ h < 80) ∧
        (phaseOfHeat h = Phase.peak ↔ 80 ≤ h)) ∧
      phaseOfHeat 30 = Phase.climb ∧
      levelOfPhase Phase.warmup = 0.3 ∧ levelOfPhase Phase.climb = 0.6 ∧
      levelOfPhase Phase.peak = 0.9 := by
  refine ⟨rfl, rfl, ?_, by norm_num [phaseOfHeat], rfl, rfl, rfl⟩
  intro h
  unfold phaseOfHeat
  refine ⟨?_, ?_, ?_⟩ <;> split_ifs with hA hB <;> simp_all <;> linarith

/-- C5: each step updates heat by exactly
`heat ← clip(heat + (heating − cooling)·Δt·k, 0, 100)` with
`heating = 0.3·r·(1−a)`, `cooling = 0.05 + 0.2·a`,
`r = clip(|e·amp|·5, 0, 1)`, `a = 1` iff `|e| > 0.8` else `0`,
`Δt = 1/fs` and `k = 10`. -/
theorem heat_update_formula (s : RyderState) (y : ℝ) :
    (step s y).1.heat =
      clip (s.heat +
        (0.3 * clip (|residualOf s y * s.amp| * 5.0) 0 1 *
            (1.0 - (if 0.8 < |residualOf s y| then (1.0 : ℝ) else 0.0)) -
          (0.05 + 0.2 * (if 0.8 < |residualOf s y| then (1.0 : ℝ) else 0.0))) *
          (1.0 / s.fs) * 10.0) 0 100 := rfl

/-- C7: every record in the telemetry log of any run has
`R = −|Y_star − Y|`, hence `R ≤ 0`, with `R = 0` exactly when
`Y_star = Y`. -/
theorem reward_nonpositive_exact (fs : ℝ) (obs : List ℝ) :
    ∀ r ∈ (runSteps (mkAgent fs) obs).CIEU_log,
      r.R = -|r.Y_star - r.Y| ∧ r.R ≤ 0 ∧ (r.R = 0 ↔ r.Y_star = r.Y) := by
  apply log_entries_prop
  · intro s y
    refine ⟨rfl, neg_nonpos.mpr (abs_nonneg _), ?_⟩
    show -|newYstar s y - resonanceOf s y| = 0 ↔ _
    rw [neg_eq_zero, abs_eq_zero, sub_eq_zero]
    exact Iff.rfl
  · intro r hr
    simp [mkAgent] at hr

/-- C7 witness: the single record of a concrete one-step run satisfies
the reward identities. -/
theorem reward_nonpositive_exact_witness :
    (stepEntry (mkAgent 100) 0).R =
        -|(stepEntry (mkAgent 100) 0).Y_star - (stepEntry (mkAgent 100) 0).Y| ∧
      (stepEntry (mkAgent 100) 0).R ≤ 0 ∧
      ((stepEntry (mkAgent 100) 0).R = 0 ↔
        (stepEntry (mkAgent 100) 0).Y_star = (stepEntry (mkAgent 100) 0).Y) :=
  reward_nonpositive_exact 100 [0] (stepEntry (mkAgent 100) 0)
    (by simp [runSteps, step_log, mkAgent])

/-- C8: the command returned by a step equals
`amp · sin(2π · freq · n · dt)` with `amp`, `freq` the values smoothed in
that step and `n` the number of previously completed steps (the log
length before the append); the log length increments by one each step and
a fresh agent has log length 0, so the first step uses simulation time
`t = 0`. -/
theorem waveform_formula (s : RyderState) (y : ℝ) (fs : ℝ) (obs : List ℝ) :
    (step s y).2 =
      (step s y).1.amp *
        Real.sin (2 * Real.pi * (step s y).1.freq *
          ((s.CIEU_log.length : ℝ) * s.dt)) ∧
      (step s y).1.CIEU_log.length = s.CIEU_log.length + 1 ∧
      (mkAgent fs).CIEU_log.length = 0 ∧
      (runSteps (mkAgent fs) obs).CIEU_log.length = obs.length := by
  refine ⟨rfl, ?_, rfl, ?_⟩
  · rw [step_log, List.length_append, List.length_singleton]
  · rw [runSteps_log_length]
    simp [mkAgent]

/-- C9: determinism — two freshly constructed controllers with identical
configuration, fed identical finite observation sequences, produce
identical output command sequences and identical final states. -/
theorem controller_deterministic (fs1 fs2 : ℝ) (obs1 obs2 : List ℝ)
    (hfs : fs1 = fs2) (hobs : obs1 = obs2) :
    runOutputs (mkAgent fs1) obs1 = runOutputs (mkAgent fs2) obs2 ∧
      runSteps (mkAgent fs1) obs1 = runSteps (mkAgent fs2) obs2 := by
  subst hfs
  subst hobs
  exact ⟨rfl, rfl⟩

/-- C9 witness: determinism instantiated at a concrete configuration and
observation sequence. -/
theorem controller_deterministic_witness :
    runOutputs (mkAgent 100) [0, 1] = runOutputs (mkAgent 100) [0, 1] ∧
      runSteps (mkAgent 100) [0, 1] = runSteps (mkAgent 100) [0, 1] :=
  controller_deterministic 100 100 [0, 1] [0, 1] rfl rfl

/-- C10: on every reachable state the synthesizer outputs are naturally
bounded with no explicit clamp: amplitude lies in `[0, 1)`, frequency
lies in `[0.5, 4.5]`, the drive force lies in `(0.2, 1)` and the damping
factor in `(0, 1]`; hence every returned waveform sample has absolute
value strictly less than 1. -/
theorem output_naturally_bounded (fs : ℝ) (obs : List ℝ) :
    (0 ≤ (runSteps (mkAgent fs) obs).amp ∧
        (runSteps (mkAgent fs) obs).amp < 1) ∧
      (0.5 ≤ (runSteps (mkAgent fs) obs).freq ∧
        (runSteps (mkAgent fs) obs).freq ≤ 4.5) ∧
      (∀ y : ℝ, 0.2 < driveOf (runSteps (mkAgent fs) obs) y ∧
        driveOf (runSteps (mkAgent fs) obs) y < 1 ∧
        0 < dampingOf (runSteps (mkAgent fs) obs) y ∧
        dampingOf (runSteps (mkAgent fs) obs) y ≤ 1) ∧
      ∀ u ∈ runOutputs (mkAgent fs) obs, |u| < 1 := by
  obtain ⟨h0, hmm, h1, h2, hh1, hh2, ha0, ha1, hf1, hf2⟩ := inv_run obs (inv_mk fs)
  refine ⟨⟨ha0, ha1⟩, ⟨hf1, hf2⟩, ?_, abs_mem_runOutputs_lt_one obs (inv_mk fs)⟩
  intro y
  obtain ⟨hd1, hd2⟩ := driveOf_mem _ y
  obtain ⟨hg1, hg2⟩ := dampingOf_mem y h0 hmm h1 h2
  exact ⟨hd1, hd2, hg1, hg2⟩

/-- C10 witness: the first emitted command of a concrete run has absolute
value below 1. -/
theorem output_naturally_bounded_witness : |outOf (mkAgent 100) 0| < 1 :=
  (output_naturally_bounded 100 [0]).2.2.2 (outOf (mkAgent 100) 0)
    (by simp [runOutputs, step_out])

/-! ## Evaluation lemmas on the fresh agent -/

theorem replicate_five : List.replicate 5 (0 : ℝ) = [0, 0, 0, 0, 0] := rfl

theorem replicate_hundred :
    List.replicate 100 (0 : ℝ) = 0 :: List.replicate 99 0 := rfl

theorem predict_mk (fs : ℝ) : predict (mkAgent fs) = 0 := by
  unfold predict mkAgent
  simp [dot, replicate_five]

theorem residualOf_mk (fs y : ℝ) : residualOf (mkAgent fs) y = y := by
  unfold residualOf
  rw [predict_mk, sub_zero]

theorem floor_hundred : (⌊(100 : ℝ)⌋).toNat = 100 := by
  rw [show ⌊(100 : ℝ)⌋ = (100 : ℤ) by norm_num]
  rfl

theorem e_maxlen_mk_100 : (mkAgent 100).e_maxlen = 100 := floor_hundred

theorem e_buf_mk_100 : (mkAgent 100).e_buf = List.replicate 100 0 := by
  show List.replicate (⌊(100 : ℝ)⌋).toNat 0 = List.replicate 100 0
  rw [floor_hundred]

theorem mk_shear_memory (fs : ℝ) : (mkAgent fs).shear_memory = 0 := rfl

theorem mk_eta_val (fs : ℝ) : (mkAgent fs).eta = 8 := rfl

theorem mk_eta_min (fs : ℝ) : (mkAgent fs).eta_min = 0.5 := rfl

theorem mk_eta_max (fs : ℝ) : (mkAgent fs).eta_max = 12 := rfl

theorem take_cons_cons_getD_one (x z : ℝ) (t : List ℝ) {n : ℕ} (h : 2 ≤ n) :
    ((x :: z :: t).take n).getD 1 0 = z := by
  obtain ⟨m, rfl⟩ : ∃ m, n = m + 2 := ⟨n - 2, by omega⟩
  simp [List.take_succ_cons]

theorem shearInStep_mk_100 (y : ℝ) : shearInStep (mkAgent 100) y = |y| := by
  unfold shearInStep newEbuf
  rw [residualOf_mk, e_maxlen_mk_100, e_buf_mk_100, replicate_hundred]
  rw [take_cons_cons_getD_one y 0 _ (by norm_num)]
  simp

/-- C6 (amended): each rheology update first smooths the shear memory,
`m ← 0.95·m + 0.05·s`, and computes `targetEta = ηmax / (1 + 2·m^1.5)`
from the just-updated shear memory `m` (not from the raw shear proxy
`s`), clamps it to `[ηmin, ηmax]`, then sets `η ← 0.9·η + 0.1·targetEta`
(smoothing factor β = 0.1). -/
theorem target_eta_from_shear_memory (s : RyderState) (y : ℝ) :
    (step s y).1.shear_memory = ema s.shear_memory (shearInStep s y) 0.05 ∧
      (step s y).1.eta =
        ema s.eta
          (clip (s.eta_max /
              (1.0 + 2.0 *
                (ema s.shear_memory (shearInStep s y) 0.05) ^ (1.5 : ℝ)))
            s.eta_min s.eta_max) 0.1 :=
  ⟨rfl, rfl⟩

/-- C6 counterexample: on the first step of a fresh agent fed `y = 1` the
shear proxy is 1, so computing `targetEta` from the raw proxy would give
`clip(12/(1+2·1^1.5)) = 4` and `η = 0.9·8 + 0.1·4 = 7.6`; the code
instead computes it from the smoothed shear memory `0.05`, which leaves
`η > 8.2`. -/
theorem target_eta_not_from_raw_shear :
    (runSteps (mkAgent 100) [1]).eta ≠
      ema (mkAgent 100).eta
        (clip ((mkAgent 100).eta_max /
            (1.0 + 2.0 * shearInStep (mkAgent 100) 1 ^ (1.5 : ℝ)))
          (mkAgent 100).eta_min (mkAgent 100).eta_max) 0.1 := by
  have hshear : shearInStep (mkAgent 100) 1 = 1 := by
    rw [shearInStep_mk_100]
    norm_num
  have hsm : newShearMemory (mkAgent 100) 1 = 0.05 := by
    unfold newShearMemory
    rw [hshear, mk_shear_memory]
    unfold ema
    norm_num
  have hc1 : (0 : ℝ) ≤ (0.05 : ℝ) ^ (1.5 : ℝ) := Real.rpow_nonneg (by norm_num) _
  have hc2 : (0.05 : ℝ) ^ (1.5 : ℝ) ≤ 0.05 := by
    have h := Real.rpow_le_rpow_of_exponent_ge (x := (0.05 : ℝ))
      (by norm_num) (by norm_num) (by norm_num : (1 : ℝ) ≤ 1.5)
    rwa [Real.rpow_one] at h
  have htpos : (0 : ℝ) < 1.0 + 2.0 * (0.05 : ℝ) ^ (1.5 : ℝ) := by linarith
  have ht10 : (10 : ℝ) ≤ (12 : ℝ) / (1.0 + 2.0 * (0.05 : ℝ) ^ (1.5 : ℝ)) := by
    rw [le_div_iff₀ htpos]
    linarith
  have ht12 : (12 : ℝ) / (1.0 + 2.0 * (0.05 : ℝ) ^ (1.5 : ℝ)) ≤ 12 :=
    div_le_self (by norm_num) (by linarith)
  have heta : (runSteps (mkAgent 100) [1]).eta =
      ema 8 ((12 : ℝ) / (1.0 + 2.0 * (0.05 : ℝ) ^ (1.5 : ℝ))) 0.1 := by
    have h1 : (runSteps (mkAgent 100) [1]).eta = newEta (mkAgent 100) 1 := rfl
    rw [h1]
    unfold newEta targetEta
    rw [hsm, mk_eta_val, mk_eta_min, mk_eta_max,
      clip_eq_of_mem (by linarith) ht12]
  have hrhs : ema (mkAgent 100).eta
      (clip ((mkAgent 100).eta_max /
          (1.0 + 2.0 * shearInStep (mkAgent 100) 1 ^ (1.5 : ℝ)))
        (mkAgent 100).eta_min (mkAgent 100).eta_max) 0.1 = 7.6 := by
    rw [hshear, mk_eta_val, mk_eta_min, mk_eta_max, Real.one_rpow]
    rw [show (12 : ℝ) / (1.0 + 2.0 * 1) = 4 by norm_num,
      clip_eq_of_mem (by norm_num) (by norm_num)]
    unfold ema
    norm_num
  rw [heta, hrhs]
  unfold ema
  intro heq
  linarith

/-! ## C3: the shear proxy -/

theorem take_cons_getD_zero (x : ℝ) (t : List ℝ) {n : ℕ} (h : 1 ≤ n) :
    ((x :: t).take n).getD 0 0 = x := by
  obtain ⟨m, rfl⟩ : ∃ m, n = m + 1 := ⟨n - 1, by omega⟩
  simp [List.take_succ_cons]

/-- C3 (amended): whenever the residual buffer is full at a capacity of
at least 3 (always the case after construction at the default rate,
since `e_buf` is pre-filled with `int(fs)` zeros), the shear proxy of a
step equals `|e_t − p|` where `p` is the most recent buffer entry before
the step — the previous step's residual `e_{t−1}` (a pre-fill zero before
the first step), one step back rather than two; the
fewer-than-3-residuals branch is dead, so the proxy can be nonzero
already on the very first step. -/
theorem shear_uses_previous_residual (s : RyderState) (y : ℝ)
    (h3 : 3 ≤ s.e_maxlen) (hfull : s.e_buf.length = s.e_maxlen) :
    shearInStep s y = |residualOf s y - s.e_buf.getD 0 0| ∧
      (step s y).1.e_buf.getD 0 0 = residualOf s y := by
  constructor
  · unfold shearInStep
    have hlen : 2 < (newEbuf s y).length := by
      unfold newEbuf
      rw [List.length_take, List.length_cons, hfull]
      omega
    rw [if_pos hlen]
    cases hbuf : s.e_buf with
    | nil =>
        rw [hbuf] at hfull
        simp at hfull
        omega
    | cons z t =>
        unfold newEbuf
        rw [hbuf, take_cons_cons_getD_one _ _ _ (by omega)]
        simp
  · rw [step_e_buf]
    unfold newEbuf
    exact take_cons_getD_zero _ _ (by omega)

/-- C3 witness: the amended shear-proxy characterisation instantiated on
a fresh default-rate agent fed `y = 1`. -/
theorem shear_uses_previous_residual_witness :
    (3 ≤ (mkAgent 100).e_maxlen ∧
        (mkAgent 100).e_buf.length = (mkAgent 100).e_maxlen) ∧
      shearInStep (mkAgent 100) 1 =
          |residualOf (mkAgent 100) 1 - (mkAgent 100).e_buf.getD 0 0| ∧
        (step (mkAgent 100) 1).1.e_buf.getD 0 0 = residualOf (mkAgent 100) 1 := by
  have h3 : 3 ≤ (mkAgent 100).e_maxlen := by
    rw [e_maxlen_mk_100]
    norm_num
  have hfull : (mkAgent 100).e_buf.length = (mkAgent 100).e_maxlen := by
    rw [e_buf_mk_100, e_maxlen_mk_100, List.length_replicate]
  exact ⟨⟨h3, hfull⟩, shear_uses_previous_residual (mkAgent 100) 1 h3 hfull⟩

/-- C3 counterexample: on the very first step of a fresh default-rate
agent — when no residual has been recorded yet, so the claim demands a
zero shear proxy — the observation `y = 1` yields a shear proxy of
`|1| = 1 ≠ 0`. -/
theorem shear_nonzero_on_first_step :
    (mkAgent 100).CIEU_log.length = 0 ∧ shearInStep (mkAgent 100) 1 ≠ 0 := by
  refine ⟨rfl, ?_⟩
  rw [shearInStep_mk_100]
  norm_num

/-! ## C2: the warm-start behaviour of the LMS filter -/

theorem mk_g_hat (fs : ℝ) : (mkAgent fs).g_hat = List.replicate 5 0 := rfl

theorem mk_u_hist (fs : ℝ) : (mkAgent fs).u_hist = List.replicate 5 0 := rfl

theorem mk_L (fs : ℝ) : (mkAgent fs).L = 5 := rfl

theorem mk_amp (fs : ℝ) : (mkAgent fs).amp = 0 := rfl

theorem dot_zero_left (l : List ℝ) (n : ℕ) : dot (List.replicate n 0) l = 0 := by
  unfold dot
  induction l generalizing n with
  | nil => simp
  | cons x t ih =>
      cases n with
      | zero => simp
      | succ m => simp [List.replicate_succ, ih]

theorem predict_of_ghat_zero {s : RyderState}
    (hg : s.g_hat = List.replicate 5 0) : predict s = 0 := by
  unfold predict
  rw [hg]
  split_ifs with h
  · exact dot_zero_left _ 5
  · norm_num

theorem newGhat_zero {s : RyderState} (y : ℝ)
    (hg : s.g_hat = List.replicate 5 0) (hu : s.u_hist = List.replicate 5 0)
    (hL : s.L = 5) : newGhat s y = List.replicate 5 0 := by
  unfold newGhat
  rw [hg, hu, hL]
  simp [replicate_five]

theorem newUhist_mk (fs : ℝ) : newUhist (mkAgent fs) = List.replicate 5 0 := by
  unfold newUhist
  rw [mk_amp, mk_u_hist, mk_L]
  rfl

/-- C2 (amended): the output-history deque is initialized full of zeros,
so the `len == L` guard of the LMS update always passes; still, the
first two updates multiply into an all-zero history, so `g_hat` is
all-zero after one and after two steps, and the echo prediction `ŷ` is 0
on each of the first three steps.  From the third step on the update can
change the weights (see the counterexample: `n = 3 < L = 5` already
yields nonzero weights). -/
theorem ghat_zero_first_two_steps (fs y1 y2 : ℝ) :
    predict (mkAgent fs) = 0 ∧
      (runSteps (mkAgent fs) [y1]).g_hat = List.replicate 5 0 ∧
      predict (runSteps (mkAgent fs) [y1]) = 0 ∧
      (runSteps (mkAgent fs) [y1, y2]).g_hat = List.replicate 5 0 ∧
      predict (runSteps (mkAgent fs) [y1, y2]) = 0 := by
  have h1g : (runSteps (mkAgent fs) [y1]).g_hat = List.replicate 5 0 :=
    newGhat_zero y1 (mk_g_hat fs) (mk_u_hist fs) (mk_L fs)
  have h1u : (runSteps (mkAgent fs) [y1]).u_hist = List.replicate 5 0 :=
    newUhist_mk fs
  have h2g : (runSteps (mkAgent fs) [y1, y2]).g_hat = List.replicate 5 0 :=
    newGhat_zero (s := runSteps (mkAgent fs) [y1]) y2 h1g h1u rfl
  exact ⟨predict_of_ghat_zero (mk_g_hat fs), h1g, predict_of_ghat_zero h1g,
    h2g, predict_of_ghat_zero h2g⟩

theorem amp1_pos (fs : ℝ) : 0 < newAmp (mkAgent fs) 0 := by
  have hd := (driveOf_mem (mkAgent fs) 0).1
  have hg := (dampingOf_mem (s := mkAgent fs) 0
    (by rw [mk_eta_min]; norm_num)
    (by rw [mk_eta_min, mk_eta_max]; norm_num)
    (by rw [mk_eta_min, mk_eta_val]; norm_num)
    (by rw [mk_eta_val, mk_eta_max]; norm_num)).1
  have hprod := mul_pos (show (0 : ℝ) < driveOf (mkAgent fs) 0 by linarith) hg
  unfold newAmp ema
  rw [mk_amp]
  nlinarith

theorem newGhat_head {s : RyderState} (y a : ℝ)
    (hg : s.g_hat = List.replicate 5 0) (hu : s.u_hist = a :: [0, 0, 0, 0])
    (hL : s.L = 5) (hmu : s.mu = 0.01) :
    newGhat s y = [0.01 * residualOf s y * a, 0, 0, 0, 0] := by
  unfold newGhat
  rw [hg, hu, hL, hmu]
  simp [replicate_five]

/-- C2 counterexample: fed the observations `[0, 0, 1]`, after `n = 3`
steps — fewer than `L = 5` — the filter weights differ from their
initial all-zero value: the first weight equals `0.01 · amp₁ > 0`,
because the pre-filled history deque makes the `len == L` guard true
from the start. -/
theorem ghat_changes_before_L_steps :
    3 < (mkAgent 100).L ∧
      (runSteps (mkAgent 100) [0, 0, 1]).g_hat ≠ (mkAgent 100).g_hat := by
  constructor
  · rw [mk_L]
    norm_num
  · have h1g : (runSteps (mkAgent 100) [0]).g_hat = List.replicate 5 0 :=
      newGhat_zero 0 (mk_g_hat 100) (mk_u_hist 100) (mk_L 100)
    have h1u : (runSteps (mkAgent 100) [0]).u_hist = List.replicate 5 0 :=
      newUhist_mk 100
    have h2g : (runSteps (mkAgent 100) [0, 0]).g_hat = List.replicate 5 0 :=
      newGhat_zero (s := runSteps (mkAgent 100) [0]) 0 h1g h1u rfl
    have h2u : (runSteps (mkAgent 100) [0, 0]).u_hist =
        newAmp (mkAgent 100) 0 :: [0, 0, 0, 0] := by
      show newUhist (runSteps (mkAgent 100) [0]) = _
      unfold newUhist
      rw [h1u,
        show (runSteps (mkAgent 100) [0]).amp = newAmp (mkAgent 100) 0 from rfl,
        show (runSteps (mkAgent 100) [0]).L = 5 from rfl]
      rfl
    have hres : residualOf (runSteps (mkAgent 100) [0, 0]) 1 = 1 := by
      unfold residualOf
      rw [predict_of_ghat_zero h2g, sub_zero]
    have h3g : (runSteps (mkAgent 100) [0, 0, 1]).g_hat =
        [0.01 * 1 * newAmp (mkAgent 100) 0, 0, 0, 0, 0] := by
      have h := newGhat_head (s := runSteps (mkAgent 100) [0, 0]) 1
        (newAmp (mkAgent 100) 0) h2g h2u rfl rfl
      rw [hres] at h
      exact h
    intro heq
    rw [h3g, mk_g_hat, replicate_five] at heq
    have hhead : (0.01 : ℝ) * 1 * newAmp (mkAgent 100) 0 = 0 :=
      (List.cons_eq_cons.mp heq).1
    have hamp := amp1_pos 100
    nlinarith

end
